import Mathlib

/-!
Verification of the retry/backoff and batch-orchestration core of the
stock-newz ingestion component (src/src/data_ingestion.py), shallowly
embedded in Lean 4.

Modelling conventions:
* An HTTP response is a record carrying its status code and body.
* The server is an oracle from the attempt index to the outcome of the
  corresponding requests.get call: either a response or a raised
  RequestException (constructor exc).
* Calls to random.uniform(a, b) are modelled by a stream
  rng : Nat -> Rat -> Rat -> Rat, where rng i a b is the value drawn by the
  i-th draw of the enclosing loop with arguments (a, b); RngUniform states
  the contract of random.uniform, that each draw lies in [a, b].
* Durations are rationals (time-units); time.sleep is recorded as a trace
  event rather than executed.
* Python exceptions are modelled by outcome constructors (for callees) and
  by Except for save_data, which re-raises.
-/

/-- An HTTP response as seen by safe_request: status code and body text. -/
structure Response where
  status : Nat
  body : String
deriving DecidableEq, Repr

/-- Outcome of one requests.get call: a response, or a RequestException. -/
inductive ReqOutcome where
  | resp (r : Response)
  | exc
deriving DecidableEq, Repr

/-- Observable events of one safe_request call: an HTTP request being
issued, or a time.sleep of the given duration. -/
inductive Event where
  | request
  | sleep (d : Rat)
deriving DecidableEq, Repr

/-- Contract of random.uniform: every draw with arguments (a, b), a <= b,
lies in the closed interval [a, b]. -/
def RngUniform (rng : Nat → Rat → Rat → Rat) : Prop :=
  ∀ i a b, a ≤ b → a ≤ rng i a b ∧ rng i a b ≤ b

/-- The body of safe_request's for-attempt loop (data_ingestion.py lines
159-185). `attempt` is the current 0-based attempt index, `fuel` the number
of loop iterations still available (initially max_retries, so that the loop
runs for attempt = 0 .. max_retries - 1).  Per iteration:
status 200 returns the response; status 429/503 sleeps uniform(10, 20) and
loops; any other status breaks (falling through to return None); a
RequestException sleeps uniform(5, 10) and retries while
attempt < max_retries - 1, and returns None on the last attempt.
Returns the result (some response or none = Python None) together with the
trace of requests issued and sleeps performed. -/
def safe_requestAux (server : Nat → ReqOutcome) (rng : Nat → Rat → Rat → Rat)
    (max_retries : Nat) : Nat → Nat → Option Response × List Event
  | _, 0 => (none, [])
  | attempt, fuel + 1 =>
    match server attempt with
    | .resp r =>
      if r.status = 200 then
        (some r, [.request])
      else if r.status = 429 ∨ r.status = 503 then
        let w := rng attempt 10 20
        let p := safe_requestAux server rng max_retries (attempt + 1) fuel
        (p.1, .request :: .sleep w :: p.2)
      else
        (none, [.request])
    | .exc =>
      if attempt < max_retries - 1 then
        let w := rng attempt 5 10
        let p := safe_requestAux server rng max_retries (attempt + 1) fuel
        (p.1, .request :: .sleep w :: p.2)
      else
        (none, [.request])

/-- safe_request (data_ingestion.py lines 155-185): run the attempt loop
from attempt 0 with max_retries iterations available. -/
def safe_request (server : Nat → ReqOutcome) (rng : Nat → Rat → Rat → Rat)
    (max_retries : Nat := 3) : Option Response × List Event :=
  safe_requestAux server rng max_retries 0 max_retries

/-- Number of HTTP requests issued in a trace. -/
def requestCount (tr : List Event) : Nat :=
  tr.countP fun e => match e with | .request => true | _ => false

/-- The sleep durations of a trace, in order. -/
def sleepDurations (tr : List Event) : List Rat :=
  tr.filterMap fun e => match e with | .sleep d => some d | _ => none

/-! ## The batch loop: get_stock_financials, get_share_prices, ingest_data -/

/-- Parsed financial sections for one symbol.  The claims treat the payload
as opaque, so it is abstracted to a natural number tag. -/
def FinPayload := Nat
deriving DecidableEq, Repr

/-- Outcome of one get_stock_financials call for a symbol, as determined by
its collaborators (data_ingestion.py lines 74-153): safe_request returned
None; fetching raised; the h2/table processing raised; or processing
produced a parsed sections payload. -/
inductive FinOutcome where
  | noResponse
  | exc
  | parseError
  | parsed (p : FinPayload)
deriving DecidableEq, Repr

/-- Outcome of the yfinance calls inside get_share_prices
(data_ingestion.py lines 187-212): an exception, or a history dataframe,
modelled as the list of its rows (prices as rationals); the empty list is
an empty dataframe. -/
inductive PriceOutcome where
  | exc
  | hist (h : List Rat)
deriving DecidableEq, Repr

/-- The success/failure counters of self.stats (data_ingestion.py lines
62-70); timestamps are not modelled. -/
structure Stats where
  successful_financials : Nat
  failed_financials : Nat
  successful_prices : Nat
  failed_prices : Nat
deriving DecidableEq, Repr

/-- The fetcher's mutable state: the two result stores (Python dicts,
modelled as partial maps) and the counters. -/
structure FetchState where
  stock_financials : String → Option FinPayload
  share_prices : String → Option (List Rat)
  stats : Stats

/-- Initial state of the fetcher (empty dicts, zero counters). -/
def initState : FetchState :=
  { stock_financials := fun _ => none
    share_prices := fun _ => none
    stats := ⟨0, 0, 0, 0⟩ }

/-- Python dict assignment d[k] = v on a partial map. -/
def dictInsert {α : Type} (m : String → Option α) (k : String) (v : α) :
    String → Option α :=
  fun s => if s = k then some v else m s

/-- get_stock_financials (data_ingestion.py lines 74-153), with its fetch
and parse collaborators summarised by the outcome argument: a missing
response, a fetch exception, or a processing exception increments
failed_financials; a parsed payload is stored under the symbol and
increments successful_financials. -/
def get_stock_financials (st : FetchState) (symbol : String)
    (o : FinOutcome) : FetchState :=
  match o with
  | .noResponse =>
    { st with stats :=
        { st.stats with failed_financials := st.stats.failed_financials + 1 } }
  | .exc =>
    { st with stats :=
        { st.stats with failed_financials := st.stats.failed_financials + 1 } }
  | .parseError =>
    { st with stats :=
        { st.stats with failed_financials := st.stats.failed_financials + 1 } }
  | .parsed p =>
    { st with
        stock_financials := dictInsert st.stock_financials symbol p
        stats :=
          { st.stats with
              successful_financials := st.stats.successful_financials + 1 } }

/-- get_share_prices (data_ingestion.py lines 187-212): an exception
increments failed_prices; a non-empty history is stored under the symbol
and increments successful_prices; an empty history increments
failed_prices and stores nothing. -/
def get_share_prices (st : FetchState) (symbol : String)
    (o : PriceOutcome) : FetchState :=
  match o with
  | .exc =>
    { st with stats :=
        { st.stats with failed_prices := st.stats.failed_prices + 1 } }
  | .hist h =>
    if ¬ h.isEmpty then
      { st with
          share_prices := dictInsert st.share_prices symbol h
          stats :=
            { st.stats with
                successful_prices := st.stats.successful_prices + 1 } }
    else
      { st with stats :=
          { st.stats with failed_prices := st.stats.failed_prices + 1 } }

/-- Observable events of the ingest_data loop: the two per-symbol
sub-fetch calls, the every-10th-symbol throttle sleep, and the
every-50th-symbol statistics snapshot. -/
inductive IngestEvent where
  | finCall (symbol : String)
  | priceCall (symbol : String)
  | throttle (d : Rat)
  | snapshot
deriving DecidableEq, Repr

/-- The body of ingest_data's for-loop (data_ingestion.py lines 221-239),
iterating over the remaining symbols with `index` the 1-based position of
the head (Python's enumerate(symbols, 1)).  finO and priceO give the
collaborators' outcome at each position; rng draws the throttle sleep
durations.  Returns the final state and the event trace. -/
def ingestAux (finO : Nat → FinOutcome) (priceO : Nat → PriceOutcome)
    (rng : Nat → Rat → Rat → Rat) :
    List String → Nat → FetchState → FetchState × List IngestEvent
  | [], _, st => (st, [])
  | symbol :: rest, index, st =>
    let st1 := get_stock_financials st symbol (finO index)
    let st2 := get_share_prices st1 symbol (priceO index)
    let evs : List IngestEvent :=
      [.finCall symbol, .priceCall symbol]
        ++ (if index % 10 = 0 then [.throttle (rng index 10 20)] else [])
        ++ (if index % 50 = 0 then [.snapshot] else [])
    let p := ingestAux finO priceO rng rest (index + 1) st2
    (p.1, evs ++ p.2)

/-- ingest_data (data_ingestion.py lines 214-243): process all symbols in
order starting from 1-based position 1 and the initial state. -/
def ingest_data (finO : Nat → FinOutcome) (priceO : Nat → PriceOutcome)
    (rng : Nat → Rat → Rat → Rat) (symbols : List String) :
    FetchState × List IngestEvent :=
  ingestAux finO priceO rng symbols 1 initState

/-- Number of throttle sleeps in an ingest trace. -/
def throttleCount (tr : List IngestEvent) : Nat :=
  tr.countP fun e => match e with | .throttle _ => true | _ => false

/-- Number of statistics snapshots in an ingest trace. -/
def snapshotCount (tr : List IngestEvent) : Nat :=
  tr.countP fun e => match e with | .snapshot => true | _ => false

/-- The symbols of the financials sub-fetch calls of a trace, in order. -/
def finCalls (tr : List IngestEvent) : List String :=
  tr.filterMap fun e => match e with | .finCall s => some s | _ => none

/-- The symbols of the price sub-fetch calls of a trace, in order. -/
def priceCalls (tr : List IngestEvent) : List String :=
  tr.filterMap fun e => match e with | .priceCall s => some s | _ => none

/-- The sub-fetch calls of a trace in order, tagged inl for a financials
call and inr for a price call. -/
def subFetchCalls (tr : List IngestEvent) : List (String ⊕ String) :=
  tr.filterMap fun e =>
    match e with
    | .finCall s => some (Sum.inl s)
    | .priceCall s => some (Sum.inr s)
    | _ => none

/-! ## save_data -/

/-- save_data (data_ingestion.py lines 283-316), with the outcomes of the
two pickle.dump/write operations passed as Except values: an error in
either dump is re-raised (the except block logs and raises); when both
succeed, the two stores are persisted verbatim and returned. -/
def save_data (dumpFin dumpPrices : Except String Unit)
    (st : FetchState) :
    Except String ((String → Option FinPayload) × (String → Option (List Rat))) :=
  match dumpFin with
  | .error e => .error e
  | .ok _ =>
    match dumpPrices with
    | .error e => .error e
    | .ok _ => .ok (st.stock_financials, st.share_prices)

/-! ## Spec-side description of the result stores -/

/-- First-some choice on options (left-biased). -/
def orO {α : Type} : Option α → Option α → Option α
  | some a, _ => some a
  | none, b => b

/-- Modelled on the spec sentence "each key maps to the most recent
successful fetch for that symbol": over the remaining symbols with 1-based
head position `index`, the financials payload of the last position whose
symbol is s and whose fetch outcome is a parsed payload. -/
def mostRecentFinSuccessAux (finO : Nat → FinOutcome) :
    List String → Nat → String → Option FinPayload
  | [], _, _ => none
  | symbol :: rest, index, s =>
    orO (mostRecentFinSuccessAux finO rest (index + 1) s)
      (if s = symbol then
        match finO index with
        | .parsed p => some p
        | _ => none
      else none)

/-- The most recent successful financials payload for s over a whole run. -/
def mostRecentFinSuccess (finO : Nat → FinOutcome) (symbols : List String)
    (s : String) : Option FinPayload :=
  mostRecentFinSuccessAux finO symbols 1 s

/-- Modelled on the spec sentence "each key maps to the most recent
successful fetch for that symbol": the price history of the last position
whose symbol is s and whose fetch outcome is a non-empty history. -/
def mostRecentPriceSuccessAux (priceO : Nat → PriceOutcome) :
    List String → Nat → String → Option (List Rat)
  | [], _, _ => none
  | symbol :: rest, index, s =>
    orO (mostRecentPriceSuccessAux priceO rest (index + 1) s)
      (if s = symbol then
        match priceO index with
        | .hist h => if ¬ h.isEmpty then some h else none
        | _ => none
      else none)

/-- The most recent successful price history for s over a whole run. -/
def mostRecentPriceSuccess (priceO : Nat → PriceOutcome)
    (symbols : List String) (s : String) : Option (List Rat) :=
  mostRecentPriceSuccessAux priceO symbols 1 s

/-! ## C1: non-retryable status codes are terminal -/

/-- C1: for every status code other than 200, 429 and 503, safe_request
treats the response as terminal: with any positive max_retries and a first
attempt answered by such a status, exactly one request is issued, no sleep
occurs, and None is returned. -/
theorem safe_request_terminal_failure
    (server : Nat → ReqOutcome) (rng : Nat → Rat → Rat → Rat)
    (max_retries : Nat) (r : Response)
    (h0 : server 0 = .resp r) (h200 : r.status ≠ 200)
    (h429 : r.status ≠ 429) (h503 : r.status ≠ 503)
    (hpos : 0 < max_retries) :
    safe_request server rng max_retries = (none, [Event.request]) := by
  obtain ⟨n, rfl⟩ : ∃ n, max_retries = n + 1 := ⟨max_retries - 1, by omega⟩
  simp [safe_request, safe_requestAux, h0, h200, h429, h503]

/-- C1 witness: max_retries = 3 and a server that always returns 500 — one
request, no sleep, failure. -/
theorem safe_request_terminal_failure_witness :
    safe_request (fun _ => ReqOutcome.resp ⟨500, ""⟩) (fun _ _ _ => (0 : Rat)) 3
      = (none, [Event.request]) :=
  safe_request_terminal_failure _ _ 3 ⟨500, ""⟩ rfl (by decide) (by decide)
    (by decide) (by decide)

/-! ## C2: 429/503 sleep in [10, 20] and retry up to max_retries attempts -/

/-- C2: with max_retries = 3 and a server answering 429 (or 503) on every
attempt, exactly 3 requests are issued, each followed by a sleep drawn
uniformly from [10, 20], and None is returned. -/
theorem safe_request_rate_limit_retries
    (rng : Nat → Rat → Rat → Rat) (hrng : RngUniform rng)
    (s : Nat) (b : String) (hs : s = 429 ∨ s = 503) :
    safe_request (fun _ => .resp ⟨s, b⟩) rng 3 =
      (none, [.request, .sleep (rng 0 10 20), .request, .sleep (rng 1 10 20),
              .request, .sleep (rng 2 10 20)])
    ∧ requestCount (safe_request (fun _ => .resp ⟨s, b⟩) rng 3).2 = 3
    ∧ ∀ d ∈ sleepDurations (safe_request (fun _ => .resp ⟨s, b⟩) rng 3).2,
        10 ≤ d ∧ d ≤ 20 := by
  have h1020 : (10 : Rat) ≤ 20 := by norm_num
  rcases hs with rfl | rfl <;>
    refine ⟨rfl, rfl, ?_⟩ <;>
    · intro d hd
      simp only [safe_request, safe_requestAux, sleepDurations,
        List.filterMap, List.mem_cons, List.not_mem_nil, or_false] at hd
      rcases hd with rfl | rfl | rfl <;> exact hrng _ 10 20 h1020

/-- C2 witness: a concrete uniform stream returning the lower endpoint, a
server always answering 429. -/
theorem safe_request_rate_limit_retries_witness :
    safe_request (fun _ => .resp ⟨429, ""⟩) (fun _ a _ => a) 3 =
      (none, [.request, .sleep 10, .request, .sleep 10, .request, .sleep 10])
    ∧ requestCount (safe_request (fun _ => .resp ⟨429, ""⟩) (fun _ a _ => a) 3).2 = 3
    ∧ ∀ d ∈ sleepDurations
        (safe_request (fun _ => .resp ⟨429, ""⟩) (fun _ a _ => a) 3).2,
        10 ≤ d ∧ d ≤ 20 :=
  safe_request_rate_limit_retries (fun _ a _ => a)
    (fun _ _ _ hab => ⟨le_rfl, hab⟩) 429 "" (Or.inl rfl)

/-! ## C4: network exceptions are absorbed -/

/-- C4: safe_request never lets a network exception escape — its result is
always exactly one of a response or None. With max_retries = 3 and a server
raising on every attempt, three requests are issued, the first two followed
by a sleep drawn uniformly from [5, 10], and the final raise yields None
with no further sleep. -/
theorem safe_request_absorbs_exceptions
    (rng : Nat → Rat → Rat → Rat) (hrng : RngUniform rng) :
    safe_request (fun _ => ReqOutcome.exc) rng 3 =
      (none, [.request, .sleep (rng 0 5 10), .request, .sleep (rng 1 5 10),
              .request])
    ∧ (∀ d ∈ sleepDurations (safe_request (fun _ => ReqOutcome.exc) rng 3).2,
        5 ≤ d ∧ d ≤ 10)
    ∧ ∀ (server : Nat → ReqOutcome) (max_retries : Nat),
        (safe_request server rng max_retries).1 = none ∨
          ∃ r, (safe_request server rng max_retries).1 = some r := by
  have h510 : (5 : Rat) ≤ 10 := by norm_num
  refine ⟨rfl, ?_, ?_⟩
  · intro d hd
    simp only [safe_request, safe_requestAux, sleepDurations,
      List.filterMap, List.mem_cons, List.not_mem_nil, or_false] at hd
    rcases hd with rfl | rfl <;> exact hrng _ 5 10 h510
  · intro server max_retries
    cases h : (safe_request server rng max_retries).1 with
    | none => exact Or.inl rfl
    | some r => exact Or.inr ⟨r, rfl⟩

/-- C4 witness: a concrete uniform stream returning the lower endpoint. -/
theorem safe_request_absorbs_exceptions_witness :
    safe_request (fun _ => ReqOutcome.exc) (fun _ a _ => a) 3 =
      (none, [.request, .sleep 5, .request, .sleep 5, .request])
    ∧ (∀ d ∈ sleepDurations
        (safe_request (fun _ => ReqOutcome.exc) (fun _ a _ => a) 3).2,
        5 ≤ d ∧ d ≤ 10)
    ∧ ∀ (server : Nat → ReqOutcome) (max_retries : Nat),
        (safe_request server (fun _ a _ => a) max_retries).1 = none ∨
          ∃ r, (safe_request server (fun _ a _ => a) max_retries).1 = some r :=
  safe_request_absorbs_exceptions (fun _ a _ => a)
    (fun _ _ _ hab => ⟨le_rfl, hab⟩)

/-! ## C3: a 200 response is returned immediately -/

/-- Attempt j neither returns nor breaks: it raised, or it was answered
with status 429 or 503. -/
def Continues (server : Nat → ReqOutcome) (j : Nat) : Prop :=
  server j = .exc ∨ ∃ r, server j = .resp r ∧ (r.status = 429 ∨ r.status = 503)

theorem requestCount_cons_request (tr : List Event) :
    requestCount (Event.request :: tr) = requestCount tr + 1 := by
  simp [requestCount, List.countP_cons]

theorem requestCount_cons_sleep (d : Rat) (tr : List Event) :
    requestCount (Event.sleep d :: tr) = requestCount tr := by
  simp [requestCount, List.countP_cons]

theorem safe_requestAux_success (server : Nat → ReqOutcome)
    (rng : Nat → Rat → Rat → Rat) (max_retries : Nat) :
    ∀ (k attempt : Nat) (r : Response),
      attempt + k < max_retries →
      server (attempt + k) = .resp r → r.status = 200 →
      (∀ j, attempt ≤ j → j < attempt + k → Continues server j) →
      ∃ tr0,
        safe_requestAux server rng max_retries attempt (max_retries - attempt)
            = (some r, tr0 ++ [Event.request])
          ∧ requestCount (tr0 ++ [Event.request]) = k + 1 := by
  intro k
  induction k with
  | zero =>
    intro attempt r hk hresp hst _
    obtain ⟨m, hm⟩ : ∃ m, max_retries - attempt = m + 1 :=
      ⟨max_retries - attempt - 1, by omega⟩
    rw [hm]
    refine ⟨[], ?_, rfl⟩
    rw [Nat.add_zero] at hresp
    simp [safe_requestAux, hresp, hst]
  | succ k ih =>
    intro attempt r hk hresp hst hprev
    have hm : max_retries - attempt = (max_retries - (attempt + 1)) + 1 := by
      omega
    rw [hm]
    have hresp1 : server (attempt + 1 + k) = .resp r := by
      rwa [show attempt + 1 + k = attempt + (k + 1) from by omega]
    have hprev1 : ∀ j, attempt + 1 ≤ j → j < attempt + 1 + k →
        Continues server j :=
      fun j hj1 hj2 => hprev j (by omega) (by omega)
    obtain ⟨tr0, heq, hcount⟩ := ih (attempt + 1) r (by omega) hresp1 hst hprev1
    rcases hprev attempt le_rfl (by omega) with hexc | ⟨r', hr', h45⟩
    · have hlt : attempt < max_retries - 1 := by omega
      refine ⟨.request :: .sleep (rng attempt 5 10) :: tr0, ?_, ?_⟩
      · simp [safe_requestAux, hexc, hlt, heq]
      · rw [List.cons_append, List.cons_append, requestCount_cons_request,
          requestCount_cons_sleep, hcount]
    · refine ⟨.request :: .sleep (rng attempt 10 20) :: tr0, ?_, ?_⟩
      · rcases h45 with h45 | h45 <;> simp [safe_requestAux, hr', h45, heq]
      · rw [List.cons_append, List.cons_append, requestCount_cons_request,
          requestCount_cons_sleep, hcount]

/-- C3: when attempt k (0-based, k < max_retries) is answered with status
200 and every earlier attempt merely continued the loop (exception or
429/503), safe_request returns that response, issues exactly k + 1
requests, and the trace ends with the successful request: no sleep follows
it and no further attempt is issued. -/
theorem safe_request_success_immediate
    (server : Nat → ReqOutcome) (rng : Nat → Rat → Rat → Rat)
    (max_retries k : Nat) (r : Response)
    (hk : k < max_retries) (hresp : server k = .resp r) (hst : r.status = 200)
    (hprev : ∀ j < k, Continues server j) :
    ∃ tr0,
      safe_request server rng max_retries = (some r, tr0 ++ [Event.request])
        ∧ requestCount (tr0 ++ [Event.request]) = k + 1 := by
  have h := safe_requestAux_success server rng max_retries k 0 r
    (by omega) (by simpa using hresp) hst
    (fun j _ hj2 => hprev j (by omega))
  simpa [safe_request] using h

/-- C3 witness: a server answering 429 on attempt 0 and 200 on attempt 1;
the 200 response comes back after exactly 2 requests, the trace ending
with the successful request. -/
theorem safe_request_success_immediate_witness :
    ∃ tr0,
      safe_request
          (fun j => if j = 0 then ReqOutcome.resp ⟨429, ""⟩
            else ReqOutcome.resp ⟨200, "ok"⟩)
          (fun _ a _ => a) 3
        = (some ⟨200, "ok"⟩, tr0 ++ [Event.request])
        ∧ requestCount (tr0 ++ [Event.request]) = 1 + 1 :=
  safe_request_success_immediate _ _ 3 1 ⟨200, "ok"⟩ (by omega) rfl rfl
    (fun j hj => by
      interval_cases j
      exact Or.inr ⟨⟨429, ""⟩, rfl, Or.inl rfl⟩)

/-! ## C5: counters always sum to the number of symbols -/

theorem get_stock_financials_stats (st : FetchState) (symbol : String)
    (o : FinOutcome) :
    ((get_stock_financials st symbol o).stats.successful_financials
        + (get_stock_financials st symbol o).stats.failed_financials
      = st.stats.successful_financials + st.stats.failed_financials + 1)
    ∧ (get_stock_financials st symbol o).stats.successful_prices
        = st.stats.successful_prices
    ∧ (get_stock_financials st symbol o).stats.failed_prices
        = st.stats.failed_prices := by
  cases o <;> simp [get_stock_financials] <;> omega

theorem get_share_prices_stats (st : FetchState) (symbol : String)
    (o : PriceOutcome) :
    ((get_share_prices st symbol o).stats.successful_prices
        + (get_share_prices st symbol o).stats.failed_prices
      = st.stats.successful_prices + st.stats.failed_prices + 1)
    ∧ (get_share_prices st symbol o).stats.successful_financials
        = st.stats.successful_financials
    ∧ (get_share_prices st symbol o).stats.failed_financials
        = st.stats.failed_financials := by
  cases o with
  | exc => simp [get_share_prices]; omega
  | hist h =>
    by_cases hh : h.isEmpty <;> simp [get_share_prices, hh] <;> omega

theorem ingestAux_counters (finO : Nat → FinOutcome)
    (priceO : Nat → PriceOutcome) (rng : Nat → Rat → Rat → Rat) :
    ∀ (syms : List String) (index : Nat) (st : FetchState),
      ((ingestAux finO priceO rng syms index st).1.stats.successful_financials
          + (ingestAux finO priceO rng syms index st).1.stats.failed_financials
        = st.stats.successful_financials + st.stats.failed_financials
            + syms.length)
      ∧ ((ingestAux finO priceO rng syms index st).1.stats.successful_prices
          + (ingestAux finO priceO rng syms index st).1.stats.failed_prices
        = st.stats.successful_prices + st.stats.failed_prices
            + syms.length) := by
  intro syms
  induction syms with
  | nil => intro index st; simp [ingestAux]
  | cons symbol rest ih =>
    intro index st
    have h1 := get_stock_financials_stats st symbol (finO index)
    have h2 := get_share_prices_stats
      (get_stock_financials st symbol (finO index)) symbol (priceO index)
    have h3 := ih (index + 1)
      (get_share_prices (get_stock_financials st symbol (finO index)) symbol
        (priceO index))
    simp only [ingestAux, List.length_cons]
    omega

theorem ingestAux_calls (finO : Nat → FinOutcome)
    (priceO : Nat → PriceOutcome) (rng : Nat → Rat → Rat → Rat) :
    ∀ (syms : List String) (index : Nat) (st : FetchState),
      finCalls (ingestAux finO priceO rng syms index st).2 = syms
      ∧ priceCalls (ingestAux finO priceO rng syms index st).2 = syms
      ∧ subFetchCalls (ingestAux finO priceO rng syms index st).2
        = syms.flatMap fun s => [Sum.inl s, Sum.inr s] := by
  intro syms
  induction syms with
  | nil =>
    intro index st
    simp [ingestAux, finCalls, priceCalls, subFetchCalls]
  | cons symbol rest ih =>
    intro index st
    obtain ⟨h1, h2, h3⟩ := ih (index + 1)
      (get_share_prices (get_stock_financials st symbol (finO index)) symbol
        (priceO index))
    simp only [finCalls, priceCalls, subFetchCalls] at h1 h2 h3
    by_cases h10 : index % 10 = 0 <;> by_cases h50 : index % 50 = 0 <;>
      simp [ingestAux, finCalls, priceCalls, subFetchCalls,
        List.filterMap_append, h10, h50, h1, h2, h3]

/-- C5: after ingest_data over N symbols,
successful_financials + failed_financials = N and
successful_prices + failed_prices = N; each call to get_stock_financials
increments exactly one of its two counters by one and leaves the price
counters alone (and symmetrically for get_share_prices), and each
sub-fetch is called exactly once per symbol. -/
theorem ingest_data_counter_invariant (finO : Nat → FinOutcome)
    (priceO : Nat → PriceOutcome) (rng : Nat → Rat → Rat → Rat)
    (symbols : List String) :
    ((ingest_data finO priceO rng symbols).1.stats.successful_financials
        + (ingest_data finO priceO rng symbols).1.stats.failed_financials
      = symbols.length)
    ∧ ((ingest_data finO priceO rng symbols).1.stats.successful_prices
        + (ingest_data finO priceO rng symbols).1.stats.failed_prices
      = symbols.length)
    ∧ (∀ (st : FetchState) (symbol : String) (o : FinOutcome),
        (get_stock_financials st symbol o).stats.successful_financials
            + (get_stock_financials st symbol o).stats.failed_financials
          = st.stats.successful_financials + st.stats.failed_financials + 1
        ∧ (get_stock_financials st symbol o).stats.successful_prices
            + (get_stock_financials st symbol o).stats.failed_prices
          = st.stats.successful_prices + st.stats.failed_prices)
    ∧ (∀ (st : FetchState) (symbol : String) (o : PriceOutcome),
        (get_share_prices st symbol o).stats.successful_prices
            + (get_share_prices st symbol o).stats.failed_prices
          = st.stats.successful_prices + st.stats.failed_prices + 1
        ∧ (get_share_prices st symbol o).stats.successful_financials
            + (get_share_prices st symbol o).stats.failed_financials
          = st.stats.successful_financials + st.stats.failed_financials)
    ∧ (finCalls (ingest_data finO priceO rng symbols).2).length
        = symbols.length
    ∧ (priceCalls (ingest_data finO priceO rng symbols).2).length
        = symbols.length := by
  have h := ingestAux_counters finO priceO rng symbols 1 initState
  have hc := ingestAux_calls finO priceO rng symbols 1 initState
  refine ⟨?_, ?_, ?_, ?_, ?_, ?_⟩
  · simpa [ingest_data, initState] using h.1
  · simpa [ingest_data, initState] using h.2
  · intro st symbol o
    have h1 := get_stock_financials_stats st symbol o
    exact ⟨h1.1, by omega⟩
  · intro st symbol o
    have h1 := get_share_prices_stats st symbol o
    exact ⟨h1.1, by omega⟩
  · simp [ingest_data, hc.1]
  · simp [ingest_data, hc.2.1]

/-! ## C6: throttle every 10th symbol, snapshot every 50th -/

theorem ingestAux_throttle_snapshot (finO : Nat → FinOutcome)
    (priceO : Nat → PriceOutcome) (rng : Nat → Rat → Rat → Rat) :
    ∀ (syms : List String) (index : Nat) (st : FetchState),
      throttleCount (ingestAux finO priceO rng syms index st).2
        = ((List.range' index syms.length).filter fun k => k % 10 = 0).length
      ∧ snapshotCount (ingestAux finO priceO rng syms index st).2
        = ((List.range' index syms.length).filter fun k => k % 50 = 0).length := by
  intro syms
  induction syms with
  | nil => intro index st; simp [ingestAux, throttleCount, snapshotCount]
  | cons symbol rest ih =>
    intro index st
    have h := ih (index + 1)
      (get_share_prices (get_stock_financials st symbol (finO index)) symbol
        (priceO index))
    by_cases h10 : index % 10 = 0 <;> by_cases h50 : index % 50 = 0 <;>
      simp [ingestAux, throttleCount, snapshotCount, List.countP_append,
        List.countP_cons, List.range'_succ, h10, h50, ← h.1, ← h.2,
        Nat.add_comm]

/-- C6: the progress/throttle sleep fires at exactly the 1-based positions
divisible by 10 and the statistics snapshot at exactly the positions
divisible by 50; in particular, for a batch of 25 symbols the throttle
fires exactly twice (positions 10 and 20) and the snapshot zero times. -/
theorem ingest_data_throttle_snapshot (finO : Nat → FinOutcome)
    (priceO : Nat → PriceOutcome) (rng : Nat → Rat → Rat → Rat)
    (symbols : List String) :
    (throttleCount (ingest_data finO priceO rng symbols).2
      = ((List.range' 1 symbols.length).filter fun k => k % 10 = 0).length)
    ∧ (snapshotCount (ingest_data finO priceO rng symbols).2
      = ((List.range' 1 symbols.length).filter fun k => k % 50 = 0).length)
    ∧ (symbols.length = 25 →
        throttleCount (ingest_data finO priceO rng symbols).2 = 2
        ∧ snapshotCount (ingest_data finO priceO rng symbols).2 = 0) := by
  have h := ingestAux_throttle_snapshot finO priceO rng symbols 1 initState
  refine ⟨h.1, h.2, fun h25 => ⟨?_, ?_⟩⟩
  · simp only [ingest_data]; rw [h.1, h25]; decide
  · simp only [ingest_data]; rw [h.2, h25]; decide

/-- C6 witness: a 25-symbol batch — throttle fires twice, snapshot never. -/
theorem ingest_data_throttle_snapshot_witness :
    throttleCount
        (ingest_data (fun _ => .noResponse) (fun _ => .exc) (fun _ a _ => a)
          (List.replicate 25 "X")).2 = 2
    ∧ snapshotCount
        (ingest_data (fun _ => .noResponse) (fun _ => .exc) (fun _ a _ => a)
          (List.replicate 25 "X")).2 = 0 :=
  (ingest_data_throttle_snapshot _ _ _ _).2.2 (by simp)

/-! ## C7: symbols processed in order, both sub-fetches per symbol -/

/-- C7: ingest_data processes the symbols in input order with no
reordering and no deduplication; for every symbol the financials fetch is
invoked and then the price fetch, independently of the outcome of either
(in particular a financials failure does not prevent the price fetch: the
equalities hold for every outcome oracle). -/
theorem ingest_data_calls_in_order (finO : Nat → FinOutcome)
    (priceO : Nat → PriceOutcome) (rng : Nat → Rat → Rat → Rat)
    (symbols : List String) :
    finCalls (ingest_data finO priceO rng symbols).2 = symbols
    ∧ priceCalls (ingest_data finO priceO rng symbols).2 = symbols
    ∧ subFetchCalls (ingest_data finO priceO rng symbols).2
      = symbols.flatMap fun s => [Sum.inl s, Sum.inr s] :=
  ingestAux_calls finO priceO rng symbols 1 initState

/-! ## C8: save_data re-raises persistence errors -/

/-- C8: an error in either dump operation is re-raised to save_data's
caller; only when both dumps succeed does save_data return, and then it
persists the two stores verbatim.  (All fetch-side failure modes are
absorbed into counters: ingest_data is a total function of its outcome
oracles.) -/
theorem save_data_error_propagation (dumpFin dumpPrices : Except String Unit)
    (st : FetchState) (e : String) :
    (dumpFin = .error e → save_data dumpFin dumpPrices st = .error e)
    ∧ (dumpFin = .ok () → dumpPrices = .error e →
        save_data dumpFin dumpPrices st = .error e)
    ∧ (dumpFin = .ok () → dumpPrices = .ok () →
        save_data dumpFin dumpPrices st
          = .ok (st.stock_financials, st.share_prices)) := by
  refine ⟨?_, ?_, ?_⟩
  · rintro rfl; rfl
  · rintro rfl rfl; rfl
  · rintro rfl rfl; rfl

/-- C8 witness: a failing financials dump terminates save_data with that
error. -/
theorem save_data_error_propagation_witness :
    save_data (Except.error "disk full") (Except.ok ()) initState
      = Except.error "disk full" :=
  (save_data_error_propagation (Except.error "disk full") (Except.ok ())
    initState "disk full").1 rfl

/-! ## C9: stores hold the most recent successful fetch per symbol -/

theorem orO_assoc {α : Type} (a b c : Option α) :
    orO (orO a b) c = orO a (orO b c) := by
  cases a <;> rfl

theorem get_share_prices_stock_financials (st : FetchState) (symbol : String)
    (o : PriceOutcome) :
    (get_share_prices st symbol o).stock_financials = st.stock_financials := by
  cases o with
  | exc => rfl
  | hist h => by_cases hh : h.isEmpty <;> simp [get_share_prices, hh]

theorem get_stock_financials_share_prices (st : FetchState) (symbol : String)
    (o : FinOutcome) :
    (get_stock_financials st symbol o).share_prices = st.share_prices := by
  cases o <;> rfl

theorem ingestAux_fin_store (finO : Nat → FinOutcome)
    (priceO : Nat → PriceOutcome) (rng : Nat → Rat → Rat → Rat) :
    ∀ (syms : List String) (index : Nat) (st : FetchState) (s : String),
      (ingestAux finO priceO rng syms index st).1.stock_financials s
        = orO (mostRecentFinSuccessAux finO syms index s)
            (st.stock_financials s) := by
  intro syms
  induction syms with
  | nil => intro index st s; rfl
  | cons symbol rest ih =>
    intro index st s
    have hstep :
        (get_share_prices (get_stock_financials st symbol (finO index)) symbol
            (priceO index)).stock_financials s
          = orO
              (if s = symbol then
                match finO index with
                | .parsed p => some p
                | _ => none
              else none)
              (st.stock_financials s) := by
      rw [get_share_prices_stock_financials]
      cases hfo : finO index <;>
        by_cases hs : s = symbol <;>
          simp [get_stock_financials, dictInsert, hs, orO]
    have hrec := ih (index + 1)
      (get_share_prices (get_stock_financials st symbol (finO index)) symbol
        (priceO index)) s
    simp only [ingestAux]
    rw [hrec, hstep, ← orO_assoc]
    rfl

theorem ingestAux_price_store (finO : Nat → FinOutcome)
    (priceO : Nat → PriceOutcome) (rng : Nat → Rat → Rat → Rat) :
    ∀ (syms : List String) (index : Nat) (st : FetchState) (s : String),
      (ingestAux finO priceO rng syms index st).1.share_prices s
        = orO (mostRecentPriceSuccessAux priceO syms index s)
            (st.share_prices s) := by
  intro syms
  induction syms with
  | nil => intro index st s; rfl
  | cons symbol rest ih =>
    intro index st s
    have hstep :
        (get_share_prices (get_stock_financials st symbol (finO index)) symbol
            (priceO index)).share_prices s
          = orO
              (if s = symbol then
                match priceO index with
                | .hist h => if ¬ h.isEmpty then some h else none
                | _ => none
              else none)
              (st.share_prices s) := by
      cases hpo : priceO index with
      | exc =>
        rw [show (get_share_prices
            (get_stock_financials st symbol (finO index)) symbol
            PriceOutcome.exc).share_prices
          = (get_stock_financials st symbol (finO index)).share_prices
          from rfl]
        rw [get_stock_financials_share_prices]
        by_cases hs : s = symbol <;> simp [hs, orO]
      | hist h =>
        by_cases hh : h.isEmpty <;> by_cases hs : s = symbol <;>
          simp [get_share_prices, get_stock_financials_share_prices,
            dictInsert, hh, hs, orO]
    have hrec := ih (index + 1)
      (get_share_prices (get_stock_financials st symbol (finO index)) symbol
        (priceO index)) s
    simp only [ingestAux]
    rw [hrec, hstep, ← orO_assoc]
    rfl

/-- C9: after a run, each key of the financials store maps to the payload
of the most recent successful financials fetch for that symbol (so an
entry appears only on success and a later success overwrites an earlier
one), and likewise for the price store; and a succeeding save_data
persists both stores verbatim only after the batch has completed. -/
theorem ingest_data_result_stores (finO : Nat → FinOutcome)
    (priceO : Nat → PriceOutcome) (rng : Nat → Rat → Rat → Rat)
    (symbols : List String) (s : String) :
    ((ingest_data finO priceO rng symbols).1.stock_financials s
      = mostRecentFinSuccess finO symbols s)
    ∧ ((ingest_data finO priceO rng symbols).1.share_prices s
      = mostRecentPriceSuccess priceO symbols s)
    ∧ save_data (.ok ()) (.ok ()) (ingest_data finO priceO rng symbols).1
      = .ok ((ingest_data finO priceO rng symbols).1.stock_financials,
          (ingest_data finO priceO rng symbols).1.share_prices) := by
  refine ⟨?_, ?_, rfl⟩
  · have h := ingestAux_fin_store finO priceO rng symbols 1 initState s
    simp only [ingest_data, mostRecentFinSuccess]
    rw [h]
    cases mostRecentFinSuccessAux finO symbols 1 s <;> rfl
  · have h := ingestAux_price_store finO priceO rng symbols 1 initState s
    simp only [ingest_data, mostRecentPriceSuccess]
    rw [h]
    cases mostRecentPriceSuccessAux priceO symbols 1 s <;> rfl

/-! ## C10: an empty price history counts as a failure -/

/-- C10: when the price provider returns successfully but with an empty
history, get_share_prices increments failed_prices by one, stores nothing,
and leaves the stores and all other counters unchanged. -/
theorem get_share_prices_empty_history (st : FetchState) (symbol : String) :
    get_share_prices st symbol (.hist [])
      = { st with stats :=
          { st.stats with failed_prices := st.stats.failed_prices + 1 } }
    ∧ (get_share_prices st symbol (.hist [])).share_prices = st.share_prices
    ∧ (get_share_prices st symbol (.hist [])).stock_financials
        = st.stock_financials
    ∧ (get_share_prices st symbol (.hist [])).stats.successful_prices
        = st.stats.successful_prices
    ∧ (get_share_prices st symbol (.hist [])).stats.successful_financials
        = st.stats.successful_financials
    ∧ (get_share_prices st symbol (.hist [])).stats.failed_financials
        = st.stats.failed_financials
    ∧ (get_share_prices st symbol (.hist [])).stats.failed_prices
        = st.stats.failed_prices + 1 :=
  ⟨rfl, rfl, rfl, rfl, rfl, rfl, rfl⟩
